import Mathlib

/-!
Shallow embedding of the monthly-expense-summarizer parsing core
(`src/monthlyexpensesummarizer/config.py` and
`src/monthlyexpensesummarizer/parser.py`).

Python strings are `String`, Python lists are `List`, Python dicts are
association lists (`List (key × value)`, insertion order preserved, as in
CPython), raised exceptions are `Except.error`, and Python's implicit
`None` return of `_get_line_ranges_of_blocks` is `Option.none`.
Logging calls are not modelled (they do not change the data flow).
-/

/-- Embeds Python's substring test `pat in s`.  `"" in s` is `True` in Python. -/
def strContains (s pat : String) : Bool :=
  (List.range (s.toList.length + 1)).any (fun i => pat.toList.isPrefixOf (s.toList.drop i))

/-- Replacement loop for `strReplace`: scan left to right, replacing
non-overlapping occurrences of `pat` (non-empty) by `repl`.  The `fuel`
argument only makes the recursion structural; every replacement step
shortens the scanned list by at least one character, so `fuel = s.length`
is always sufficient and the function agrees with Python's scan. -/
def strReplaceGo (pat repl : List Char) : Nat → List Char → List Char
  | _, [] => []
  | 0, s => s
  | fuel + 1, c :: rest =>
    if pat.isPrefixOf (c :: rest) then
      repl ++ strReplaceGo pat repl fuel ((c :: rest).drop pat.length)
    else
      c :: strReplaceGo pat repl fuel rest

/-- Embeds Python's `s.replace(pat, repl)` for a non-empty `pat` (the
parser only calls it with thousands-separator characters, which are
non-empty, so the `pat = ""` case is irrelevant to the embedded code
paths). -/
def strReplace (s pat repl : String) : String :=
  if pat = "" then s
  else String.mk (strReplaceGo pat.toList repl.toList s.toList.length s.toList)

/-- Embeds Python's `line.isspace()`: non-empty and all characters whitespace. -/
def pyIsSpace (s : String) : Bool :=
  s ≠ "" && s.toList.all Char.isWhitespace

/-- Digit-run conversion for `pyInt`: all characters must be decimal
digits and there must be at least one. -/
def pyIntDigits (l : List Char) : Option Nat :=
  if l = [] then none
  else if l.all Char.isDigit then
    some (l.foldl (fun acc c => acc * 10 + (c.toNat - 48)) 0)
  else none

/-- Embeds Python's `int(s)` as used by `_convert_amount_str`; accepts an
optionally `-`-signed run of decimal digits and returns the `ValueError`
for anything else (Python additionally tolerates surrounding whitespace, a
`+` sign and `_` digit separators, none of which occur in amount texts). -/
def pyInt (s : String) : Except String Int :=
  let res : Option Int :=
    match s.toList with
    | '-' :: rest => (pyIntDigits rest).map (fun n => -(n : Int))
    | l => (pyIntDigits l).map (fun n => (n : Int))
  match res with
  | some n => Except.ok n
  | none => Except.error ("ValueError: invalid literal for int with base 10: " ++ s)

/-- Split on a separator character, keeping empty segments, as Python's
`s.split(sep)` for a one-character `sep`. -/
def splitOnChar (sep : Char) : List Char → List (List Char)
  | [] => [[]]
  | c :: rest =>
    match splitOnChar sep rest with
    | [] => [[c]]
    | h :: t => if c = sep then [] :: h :: t else (c :: h) :: t

/-- Embeds Python's `file_contents.split("\n")`. -/
def pySplitLines (s : String) : List String :=
  (splitOnChar (Char.ofNat 10) s.toList).map String.mk

/-- Embeds Python's `sep.join(parts)` as used by
`"\n".join(list_of_lines)`. -/
def pyJoin (sep : String) : List String → String
  | [] => ""
  | [x] => x
  | x :: y :: rest => x ++ sep ++ pyJoin sep (y :: rest)

/-- Embeds Python's `s.find(c)`: index of the first occurrence of character `c`
(`none` models `-1`). -/
def findIdxOfChar (c : Char) : List Char → Option Nat
  | [] => none
  | x :: xs => if x = c then some 0 else (findIdxOfChar c xs).map (· + 1)

/-- Embeds Python's `s.rfind(c)`: index of the last occurrence of character `c`
(`none` models `-1`). -/
def rfindIdxOfChar (c : Char) (l : List Char) : Option Nat :=
  (findIdxOfChar c l.reverse).map (fun j => l.length - 1 - j)

/-! Data model from `config.py`. -/

/-- Embeds `config.PaymentMethod` (dataclass).  The source field
`postfix_symbols` keeps its name; `name` is filled from the registry key. -/
structure PaymentMethod where
  short_name : String
  display_name : String
  prefix_symbol : String
  postfix_symbols : List String
  name : Option String := none
  deriving DecidableEq, Repr

/-- Embeds `config.ItemType` (defined in the revision of `config.py` imported by
`parser.py`; the three members are the ones `parser.py` and
`aggregator.py` use). -/
inductive ItemType
  | EXPENSE
  | INCOME
  | SPECIAL
  deriving DecidableEq, Repr

/-- Embeds `config.ExpenseFieldType`. -/
inductive ExpenseFieldType
  | regex
  | literal
  deriving DecidableEq, Repr

/-- Embeds `config.ExpenseField` (dataclass); `ftype` embeds the source field
`type`. -/
structure ExpenseField where
  ftype : ExpenseFieldType
  value : String
  optional : Bool
  extract_inner_group : Bool := false
  deriving DecidableEq, Repr

/-- The configuration data read by `ParsedExpense.post_init` and
`ExpenseInputFileParser._convert_amount_str` in `parser.py`:
`config.parser_settings.income_settings.symbol`,
`config.parser_settings.special_item_prefixes`,
`config.parser_settings.fail_on_unrecognized_payments`,
`config.parser_settings.thousands_separator_chars` and the registry
`config.payment_methods_by_prefix_and_postfix` (the registry field is named
`payment_methods_by_prefix_and_suffix` here; order-preserving association
list for the Python dict). -/
structure ClassifyConfig where
  income_symbol : String
  special_item_prefixes : List String
  fail_on_unrecognized_payments : Bool
  thousands_separator_chars : List String
  payment_methods_by_prefix_and_suffix : List ((String × String) × PaymentMethod)
  deriving DecidableEq, Repr

/-- The amount slot of `ParsedExpense`.  The dataclass annotates the field
as `int`, but Python does not enforce annotations, so the slot holds
whatever value the code assigns; both shapes that occur are represented. -/
inductive AmountVal
  | ofStr (s : String)
  | ofInt (n : Int)
  deriving DecidableEq, Repr

/-- Embeds `parser.ParsedExpense` (dataclass).  The source field
`payment_method_postfix` is embedded as `payment_method_suffix`. -/
structure ParsedExpense where
  date : String
  payment_method_marker : String
  payment_method_suffix : String
  amount : AmountVal
  title : String
  details : String
  more_details : String
  amount_title_sep : String
  payment_method : Option PaymentMethod := none
  item_type : Option ItemType := none
  deriving DecidableEq, Repr

/-- Embeds `parser.ParsedExpense.post_init`.  Sets `item_type` (and
`payment_method`), then raises `ValueError` when the fail-fast flag is set
and the payment method was unrecognized.  The `LOG.error` call is not
modelled. -/
def postInit (e : ParsedExpense) (cfg : ClassifyConfig) : Except String ParsedExpense :=
  let key := (e.payment_method_marker, e.payment_method_suffix)
  let step : ParsedExpense × Bool :=
    if e.payment_method_marker = cfg.income_symbol then
      ({ e with item_type := some ItemType.INCOME }, false)
    else if e.payment_method_marker ∈ cfg.special_item_prefixes then
      ({ e with item_type := some ItemType.SPECIAL }, false)
    else
      match List.lookup key cfg.payment_methods_by_prefix_and_suffix with
      | none =>
        ({ e with payment_method := none, item_type := some ItemType.EXPENSE }, true)
      | some pm =>
        ({ e with payment_method := some pm, item_type := some ItemType.EXPENSE }, false)
  if cfg.fail_on_unrecognized_payments && step.2 then
    Except.error "Found unrecognized payment methods, stopping execution as per config setting!"
  else
    Except.ok step.1

/-- Embeds `parser.ExpenseInputFileParser._convert_amount_str`: strip every
configured thousands-separator occurring in the original text, then
convert with `int`.  (This helper is defined in the source but never
called from `_parse_expense_obj_from_match_groups`.) -/
def convertAmountStr (sepChars : List String) (amount : String) : Except String Int :=
  let newAmount := sepChars.foldl
    (fun acc sep => if strContains amount sep then strReplace acc sep "" else acc) amount
  pyInt newAmount

/-- The named capture groups read from a successful match of the composite
pattern, one per member of `config.MandatoryExpenseField` (the source field
`PAYMENT_METHOD_POSTFIX` is embedded as `payment_method_suffix`). -/
structure MatchGroups where
  payment_method_marker : String
  amount : String
  amount_title_sep : String
  title : String
  details : String
  more_details : String
  payment_method_suffix : String
  deriving DecidableEq, Repr

/-- The `ParsedExpense(**prop_dict)` construction in
`parser.ExpenseInputFileParser._parse_expense_obj_from_match_groups`:
`date` plus one lower-cased mandatory field per match group.  The amount
group is stored as the raw matched text (the conversion helper is only a
TODO comment in the source). -/
def mkExpenseFromGroups (date : String) (m : MatchGroups) : ParsedExpense :=
  { date := date
    payment_method_marker := m.payment_method_marker
    payment_method_suffix := m.payment_method_suffix
    amount := AmountVal.ofStr m.amount
    title := m.title
    details := m.details
    more_details := m.more_details
    amount_title_sep := m.amount_title_sep }

/-- Embeds `parser.ExpenseInputFileParser._parse_expense_obj_from_match_groups`:
build the dataclass from the match groups, then run `post_init`. -/
def parseExpenseObjFromMatchGroups (cfg : ClassifyConfig) (m : MatchGroups)
    (date : String) : Except String ParsedExpense :=
  postInit (mkExpenseFromGroups date m) cfg

/-! Schema loading from `config.py`. -/

/-- Character class of the sanitization pattern `[a-zA-Z0-9 ]`. -/
def isSanitChar (c : Char) : Bool :=
  c.isAlphanum || c = ' '

/-- Embeds `re.findall("[a-zA-Z0-9 ]+", postfix)` taking the first match, as in
`ParserConfig.__post_init__`: the first maximal run of alphanumeric-or-space
characters, `none` when the text has no such character. -/
def sanitizeSuffix (pf : String) : Option String :=
  let rest := pf.toList.dropWhile (fun c => !isSanitChar c)
  match rest with
  | [] => none
  | _ => some (String.mk (rest.takeWhile isSanitChar))

/-- Errors raised by `ParserConfig.__post_init__` while building the
payment-method registry.  `duplicateKey` carries the two conflicting
payment methods that the formatted `ValueError` message lists
(`payment_methods_with_dupe_key`); `invalidSuffix` is the
"Postfix is invalid" `ValueError`. -/
inductive ConfigError
  | invalidSuffix (pf : String)
  | duplicateKey (key : String × String) (first second : PaymentMethod)
  deriving DecidableEq, Repr

/-- Inner loop of `ParserConfig.__post_init__` over `pm.postfix_symbols`:
sanitize, build the `(prefix_symbol, sanitized)` key, fail on a duplicate,
otherwise register the payment method under the key. -/
def registerSuffixes (pm : PaymentMethod) :
    List String → List ((String × String) × PaymentMethod) →
    Except ConfigError (List ((String × String) × PaymentMethod))
  | [], reg => Except.ok reg
  | pf :: rest, reg =>
    match sanitizeSuffix pf with
    | none => Except.error (ConfigError.invalidSuffix pf)
    | some sp =>
      let key := (pm.prefix_symbol, sp)
      match List.lookup key reg with
      | some firstPm => Except.error (ConfigError.duplicateKey key firstPm pm)
      | none => registerSuffixes pm rest (reg ++ [(key, pm)])

/-- Outer loop of `ParserConfig.__post_init__` over
`self.payment_methods.values()` (insertion order). -/
def buildRegistry :
    List PaymentMethod → List ((String × String) × PaymentMethod) →
    Except ConfigError (List ((String × String) × PaymentMethod))
  | [], reg => Except.ok reg
  | pm :: rest, reg =>
    match registerSuffixes pm pm.postfix_symbols reg with
    | Except.error e => Except.error e
    | Except.ok reg' => buildRegistry rest reg'

/-- The compiled registry `payment_methods_by_prefix_and_postfix` produced
by `ParserConfig.__post_init__` from the payment-method list. -/
def paymentMethodsRegistry (pms : List PaymentMethod) :
    Except ConfigError (List ((String × String) × PaymentMethod)) :=
  buildRegistry pms []

/-- The `(prefix_symbol, sanitized)` keys contributed by one payment
method, in postfix order. -/
def keysOfPm (pm : PaymentMethod) : List (String × String) :=
  pm.postfix_symbols.filterMap (fun pf => (sanitizeSuffix pf).map (fun sp => (pm.prefix_symbol, sp)))

/-- All registry keys contributed by a payment-method list, in
registration order. -/
def allRegistryKeys : List PaymentMethod → List (String × String)
  | [] => []
  | pm :: rest => keysOfPm pm ++ allRegistryKeys rest

/-- Embeds `ParserConfigReader._ensure_there_is_only_one_regex_group`. -/
def ensureThereIsOnlyOneRegexGroup (regex : String) : Bool :=
  let countOpen := regex.toList.count '('
  let countClose := regex.toList.count ')'
  if countOpen ≠ countClose then false
  else if countOpen > 1 || countOpen = 0 then false
  else true

/-- Embeds `ParserConfigReader._create_regex`.  For `extract_inner_group` fields:
find the first `(` and the last `)`, peek at the character after the `)`
(Python raises `IndexError` when the `)` is the last character), treat it
as a quantifier when it is `*`, `?` or `+`, and assemble
`start + "(?P<name>" + inner + quantifier + ")" + end` where `end` is the
whole text from the position after `)` on.  The unreachable `none` arms
model Python's `find`/`rfind` returning `-1`, which validation
(`_ensure_there_is_only_one_regex_group`) rules out for these fields. -/
def createRegex (groupName : String) (fieldObject : ExpenseField) : Except String String :=
  let regexValue := fieldObject.value
  if fieldObject.extract_inner_group then
    match findIdxOfChar '(' regexValue.toList, rfindIdxOfChar ')' regexValue.toList with
    | some openIdx, some closeIdx =>
      match regexValue.toList.get? (closeIdx + 1) with
      | none => Except.error "IndexError: string index out of range"
      | some qc =>
        let quantifier := if qc = '*' || qc = '?' || qc = '+' then [qc] else []
        let start := regexValue.toList.take openIdx
        let endPart := regexValue.toList.drop (closeIdx + 1)
        let group := (regexValue.toList.take closeIdx).drop (openIdx + 1) ++ quantifier
        Except.ok (String.mk start ++ "(?P<" ++ groupName ++ ">" ++ String.mk group
          ++ ")" ++ String.mk endPart)
    | _, _ => Except.error "group delimiters not found"
  else
    let grouped := "(?P<" ++ groupName ++ ">" ++ regexValue ++ ")"
    Except.ok (if fieldObject.optional then grouped ++ "*" else grouped)

/-- Python dict update `used_group_names[k] = v` for a key already
present. -/
def updateAssoc (l : List (String × Nat)) (k : String) (v : Nat) : List (String × Nat) :=
  l.map (fun e => if e.1 = k then (k, v) else e)

/-- Loop body of `ParserConfigReader._create_final_regex` over
`self.field_positions` with the `used_group_names` dict and the
accumulated pattern text.  A placeholder without a field definition is the
Python `KeyError` on `field_objects[field_name]`. -/
def createFinalRegexGo (fields : List (String × ExpenseField)) (mandatoryNames : List String) :
    List String → List (String × Nat) → String → Except String String
  | [], _, acc => Except.ok acc
  | fieldName :: rest, used, acc =>
    match List.lookup fieldName fields with
    | none => Except.error ("KeyError: " ++ fieldName)
    | some fieldObject =>
      match List.lookup fieldName used with
      | none =>
        match createRegex fieldName fieldObject with
        | Except.error e => Except.error e
        | Except.ok r =>
          createFinalRegexGo fields mandatoryNames rest ((fieldName, 1) :: used) (acc ++ r)
      | some cnt =>
        if fieldName ∉ mandatoryNames then
          match createRegex (fieldName ++ "_" ++ toString (cnt + 1)) fieldObject with
          | Except.error e => Except.error e
          | Except.ok r =>
            createFinalRegexGo fields mandatoryNames rest
              (updateAssoc used fieldName (cnt + 1)) (acc ++ r)
        else
          Except.error ("Group name is already used in regex: " ++ fieldName)

/-- Embeds `ParserConfigReader._create_final_regex`: build the composite pattern
over the template's placeholder list in order. -/
def createFinalRegex (fieldPositions : List String) (fields : List (String × ExpenseField))
    (mandatoryNames : List String) : Except String String :=
  createFinalRegexGo fields mandatoryNames fieldPositions [] ""

/-- Group name dictated by the specification for an occurrence of a
placeholder: the plain field name for the first occurrence
(`seenCount = 0`), the name suffixed with the incrementing occurrence
counter for repeats. -/
def specGroupName (seenCount : Nat) (n : String) : String :=
  if seenCount = 0 then n else n ++ "_" ++ toString (seenCount + 1)

/-- Composite-pattern builder as the specification words it: walk the
placeholders in template order, give each occurrence the
occurrence-counted group name of `specGroupName`, and concatenate the
per-field grouped sub-patterns. -/
def composeBySpec (fields : List (String × ExpenseField)) :
    List String → List String → String → Except String String
  | [], _, acc => Except.ok acc
  | n :: rest, seen, acc =>
    match List.lookup n fields with
    | none => Except.error ("KeyError: " ++ n)
    | some fieldObject =>
      match createRegex (specGroupName (seen.count n) n) fieldObject with
      | Except.error e => Except.error e
      | Except.ok r => composeBySpec fields rest (seen ++ [n]) (acc ++ r)

/-! Block segmentation from `parser.py`. -/

/-- The mutable scanning state of `ExpenseInputFileParser` (`inside_multiline`,
`multiline_start_idx`, `excluded_lines`, `line_ranges_of_blocks`).  The
appended `Option` models that Python appends the raw return value of
`_get_line_ranges_of_blocks`, which is `None` for a blank line outside a
block.  `multilineStartIdx` is initialized to `-1` in the source and never
read before being assigned; it starts at `0` here. -/
structure SegState where
  insideMultiline : Bool
  multilineStartIdx : Nat
  excludedLines : List Nat
  lineRanges : List (Option (Nat × Nat))
  deriving DecidableEq, Repr

/-- The initial scanning state set up in `__init__`. -/
def initSegState : SegState :=
  { insideMultiline := false, multilineStartIdx := 0, excludedLines := [], lineRanges := [] }

/-- Return value of `_get_line_ranges_of_blocks`: the two sentinels, a
line range, or Python's implicit `None`. -/
inductive LineRangeResult
  | header
  | contin
  | range (r : Nat × Nat)
  | noRange
  deriving DecidableEq, Repr

/-- Embeds `ExpenseInputFileParser._get_line_ranges_of_blocks`.  `openChars` and
`closeChars` are the configured block-open/block-close marker strings
(Python keeps them in sets; `any` over a containment test ignores order and
duplicates). -/
def getLineRangesOfBlocks (openChars closeChars : List String) (st : SegState)
    (line : String) (idx : Nat) : SegState × LineRangeResult :=
  let multiLineOpened := openChars.any (fun c => strContains line c)
  let multiLineClosed := closeChars.any (fun c => strContains line c)
  if multiLineOpened && !st.insideMultiline then
    ({ st with insideMultiline := true, multilineStartIdx := idx }, LineRangeResult.header)
  else if multiLineClosed && st.insideMultiline then
    ({ st with insideMultiline := false }, LineRangeResult.range (st.multilineStartIdx, idx))
  else if !multiLineClosed && st.insideMultiline then
    (st, LineRangeResult.contin)
  else if decide (idx ∉ st.excludedLines) && (decide (line ≠ "") && !pyIsSpace line) then
    (st, LineRangeResult.range (idx, idx))
  else
    (st, LineRangeResult.noRange)

/-- One iteration of the scanning loop in
`ExpenseInputFileParser.parse`: a line matching a date pattern is recorded
as excluded; otherwise the `_get_line_ranges_of_blocks` result is appended
unless it is one of the two multi-line sentinels.  `isDateLine` embeds
`_determine_if_line_excluded` (true iff any compiled date regex matches
the line). -/
def segmentStep (isDateLine : String → Bool) (openChars closeChars : List String)
    (st : SegState) (p : Nat × String) : SegState :=
  if isDateLine p.2 then
    { st with excludedLines := st.excludedLines ++ [p.1] }
  else
    let res := getLineRangesOfBlocks openChars closeChars st p.2 p.1
    match res.2 with
    | LineRangeResult.header => res.1
    | LineRangeResult.contin => res.1
    | LineRangeResult.range r => { res.1 with lineRanges := res.1.lineRanges ++ [some r] }
    | LineRangeResult.noRange => { res.1 with lineRanges := res.1.lineRanges ++ [none] }

/-- The full scanning pass of `ExpenseInputFileParser.parse` over the
enumerated lines of the file. -/
def segmentLines (isDateLine : String → Bool) (openChars closeChars : List String)
    (linesOfFile : List String) : SegState :=
  linesOfFile.enum.foldl (segmentStep isDateLine openChars closeChars) initSegState

/-- Embeds `ExpenseInputFileParser._get_lines_by_ranges` (inner recursion over the
recorded line ranges with the running date index).  Errors model the
Python exceptions: subscripting a `None` range (`TypeError`) and indexing
`excluded_lines` out of range (`IndexError`). -/
def getLinesByRangesGo (linesOfFile : List String) (excluded : List Nat) :
    List (Option (Nat × Nat)) → Nat → Except String (List (List String × String))
  | [], _ => Except.ok []
  | none :: _, _ => Except.error "TypeError: NoneType object is not subscriptable"
  | some r :: rest, currDateIdx =>
    let listOfLines := (linesOfFile.drop r.1).take (r.2 + 1 - r.1)
    let advance : Except String Nat :=
      if ((excluded.length : Int) - 1) ≠ (currDateIdx : Int) then
        match excluded.get? (currDateIdx + 1) with
        | none => Except.error "IndexError: list index out of range"
        | some nxt => Except.ok (if r.2 > nxt then currDateIdx + 1 else currDateIdx)
      else
        Except.ok currDateIdx
    match advance with
    | Except.error e => Except.error e
    | Except.ok curr =>
      match excluded.get? curr with
      | none => Except.error "IndexError: list index out of range"
      | some dateIdx =>
        match linesOfFile.get? dateIdx with
        | none => Except.error "IndexError: list index out of range"
        | some date =>
          match getLinesByRangesGo linesOfFile excluded rest curr with
          | Except.error e => Except.error e
          | Except.ok tail => Except.ok ((listOfLines, date) :: tail)

/-- Embeds `ExpenseInputFileParser._get_lines_by_ranges`. -/
def getLinesByRanges (linesOfFile : List String) (ranges : List (Option (Nat × Nat)))
    (excluded : List Nat) : Except String (List (List String × String)) :=
  getLinesByRangesGo linesOfFile excluded ranges 0

/-- Embeds `ExpenseInputFileParser._process_line_ranges`.  `matchFn` embeds
`re.match(self.extended_config.expense_regex, lines, re.MULTILINE)`:
`none` for a non-match, otherwise the named groups of the match.  A
non-matching block is logged and skipped; a raised classification error
propagates. -/
def processLineRanges (cfg : ClassifyConfig) (matchFn : String → Option MatchGroups) :
    List (List String × String) → Except String (List ParsedExpense)
  | [] => Except.ok []
  | (listOfLines, date) :: rest =>
    let joined := pyJoin "\n" listOfLines
    match matchFn joined with
    | none => processLineRanges cfg matchFn rest
    | some m =>
      match parseExpenseObjFromMatchGroups cfg m date with
      | Except.error e => Except.error e
      | Except.ok pe =>
        match processLineRanges cfg matchFn rest with
        | Except.error e => Except.error e
        | Except.ok pes => Except.ok (pe :: pes)

/-- Embeds `ExpenseInputFileParser.parse`: split the file contents on newlines,
scan the lines into excluded (date) lines and block line ranges, attach
dates, and process every block against the composite pattern. -/
def parseFile (cfg : ClassifyConfig) (isDateLine : String → Bool)
    (openChars closeChars : List String) (matchFn : String → Option MatchGroups)
    (fileContents : String) : Except String (List ParsedExpense) :=
  let linesOfFile := pySplitLines fileContents
  let st := segmentLines isDateLine openChars closeChars linesOfFile
  match getLinesByRanges linesOfFile st.lineRanges st.excludedLines with
  | Except.error e => Except.error e
  | Except.ok blocks => processLineRanges cfg matchFn blocks

/-! Specification-side definitions and concrete data used by the claim
theorems. -/

/-- Classification rule as the specification words it (claim C2): income
symbol first, regardless of the registry and before any registry lookup;
then the special-item prefix set; then the registry lookup; an
unrecognized `(marker, postfix)` yields an Expense with no payment method
and aborts the run exactly when the fail-on-unrecognized-payments flag is
set. -/
def classifyPerSpec (e : ParsedExpense) (cfg : ClassifyConfig) : Except String ParsedExpense :=
  if e.payment_method_marker = cfg.income_symbol then
    Except.ok { e with item_type := some ItemType.INCOME }
  else if e.payment_method_marker ∈ cfg.special_item_prefixes then
    Except.ok { e with item_type := some ItemType.SPECIAL }
  else
    match List.lookup (e.payment_method_marker, e.payment_method_suffix)
        cfg.payment_methods_by_prefix_and_suffix with
    | some pm => Except.ok { e with payment_method := some pm, item_type := some ItemType.EXPENSE }
    | none =>
      if cfg.fail_on_unrecognized_payments then
        Except.error "Found unrecognized payment methods, stopping execution as per config setting!"
      else
        Except.ok { e with payment_method := none, item_type := some ItemType.EXPENSE }

/-- Concrete payment method used by the concrete-input theorems. -/
def pmCash : PaymentMethod :=
  { short_name := "cash", display_name := "Cash", prefix_symbol := "-", postfix_symbols := ["K"] }

/-- Concrete parser configuration used by the concrete-input theorems
(income symbol `+`, one special prefix, fail-fast disabled, thousands
separator `.`, one registered payment method). -/
def demoCfg : ClassifyConfig :=
  { income_symbol := "+"
    special_item_prefixes := ["**"]
    fail_on_unrecognized_payments := false
    thousands_separator_chars := ["."]
    payment_methods_by_prefix_and_suffix := [(("-", "K"), pmCash)] }

/-- Concrete match groups with amount text `1.234`. -/
def demoGroups : MatchGroups :=
  { payment_method_marker := "-"
    amount := "1.234"
    amount_title_sep := " | "
    title := "Coffee"
    details := ""
    more_details := ""
    payment_method_suffix := "K" }

/-- Date-line predicate recognizing the single date text `2021.08.01`
(a concrete instantiation of the compiled date patterns). -/
def demoIsDate1 (l : String) : Bool := l = "2021.08.01"

/-- Date-line predicate recognizing three date texts. -/
def demoIsDate3 (l : String) : Bool :=
  l = "2021.08.01" || l = "2021.08.02" || l = "2021.08.03"

/-- Line list with a date line, one block, two consecutive date lines, and
a second block. -/
def demoLines4 : List String :=
  ["2021.08.01", "- 10", "2021.08.02", "2021.08.03", "- 20"]

/-! Claim theorems. -/

/-- C1: the specification says every successfully matched block yields a
Parsed Entry whose amount is the integer obtained by stripping the
configured thousands separators from the matched amount text (`"1.234"`
with separators `["."]` giving `1234`).  The conversion helper
`_convert_amount_str` indeed computes `1234` from `"1.234"`, but
`_parse_expense_obj_from_match_groups` never calls it (it is only a TODO
comment): the produced entry carries the raw matched string in its amount
slot, not the integer. -/
theorem c1_amount_left_unconverted :
    convertAmountStr ["."] "1.234" = Except.ok 1234 ∧
    parseExpenseObjFromMatchGroups demoCfg demoGroups "2021.08.01" =
      Except.ok
        { date := "2021.08.01"
          payment_method_marker := "-"
          payment_method_suffix := "K"
          amount := AmountVal.ofStr "1.234"
          title := "Coffee"
          details := ""
          more_details := ""
          amount_title_sep := " | "
          payment_method := some pmCash
          item_type := some ItemType.EXPENSE } ∧
    AmountVal.ofStr "1.234" ≠ AmountVal.ofInt 1234 :=
  ⟨rfl, rfl, by decide⟩

/-- C2: for every entry and configuration, `post_init` classifies exactly
as the specification orders it: income symbol first (before and regardless
of any registry lookup), then the special-item prefix set, then the
registry, with the unrecognized case keeping the entry as an Expense with
no payment method and raising a hard error precisely when the
fail-on-unrecognized-payments flag is set. -/
theorem c2_classification_matches_spec (e : ParsedExpense) (cfg : ClassifyConfig) :
    postInit e cfg = classifyPerSpec e cfg := by
  unfold postInit classifyPerSpec
  by_cases h1 : e.payment_method_marker = cfg.income_symbol
  · simp [h1]
  · by_cases h2 : e.payment_method_marker ∈ cfg.special_item_prefixes
    · simp [h1, h2]
    · cases hl : List.lookup (e.payment_method_marker, e.payment_method_suffix)
          cfg.payment_methods_by_prefix_and_suffix with
      | none =>
        by_cases h3 : cfg.fail_on_unrecognized_payments <;> simp [h1, h2, hl, h3]
      | some pm => simp [h1, h2, hl]

/-- C3: the specification says a blank line outside a multi-line block
produces no block and the parse completes normally.  In the code,
`_get_line_ranges_of_blocks` falls through every branch on such a line and
returns `None`, which `parse` appends to `line_ranges_of_blocks` (only the
two multi-line sentinels are filtered out); `_get_lines_by_ranges` then
subscripts that `None` and the parse dies with a `TypeError`.  The theorem
evaluates the code on a file with a date line, a blank line and one
single-line entry. -/
theorem c3_blank_line_crashes_parse :
    segmentLines demoIsDate1 ["("] [")"] ["2021.08.01", "", "- 10"] =
      { insideMultiline := false
        multilineStartIdx := 0
        excludedLines := [0]
        lineRanges := [none, some (2, 2)] } ∧
    parseFile demoCfg demoIsDate1 ["("] [")"] (fun _ => none) "2021.08.01\n\n- 10" =
      Except.error "TypeError: NoneType object is not subscriptable" :=
  ⟨rfl, rfl⟩

/-- C4: the specification says every block is associated with the nearest
preceding date line, regardless of how many date lines occur between
consecutive blocks.  The date-advance condition in `_get_lines_by_ranges`
moves `curr_date_idx` forward at most once per block, so after two
consecutive date lines (indices 2 and 3) the block at line 4 is associated
with the date at index 2 (`2021.08.02`) instead of the nearest preceding
date line at index 3 (`2021.08.03`). -/
theorem c4_date_not_nearest_preceding :
    segmentLines demoIsDate3 ["("] [")"] demoLines4 =
      { insideMultiline := false
        multilineStartIdx := 0
        excludedLines := [0, 2, 3]
        lineRanges := [some (1, 1), some (4, 4)] } ∧
    getLinesByRanges demoLines4 [some (1, 1), some (4, 4)] [0, 2, 3] =
      Except.ok [(["- 10"], "2021.08.01"), (["- 20"], "2021.08.02")] ∧
    demoLines4.get? 3 = some "2021.08.03" ∧
    ("2021.08.02" : String) ≠ "2021.08.03" :=
  ⟨rfl, rfl, rfl, by decide⟩

/-- C10 (amended): if the scan of the file records no excluded (date) line
but at least one element in `line_ranges_of_blocks`, the parse raises: an
`IndexError` when the first element is a block (the date lookup indexes
the empty excluded-lines list), a `TypeError` when it is a blank-line
`None` placeholder. -/
theorem c10_no_date_line_parse_fails (cfg : ClassifyConfig) (isDateLine : String → Bool)
    (openChars closeChars : List String) (matchFn : String → Option MatchGroups)
    (fileContents : String)
    (hexc : (segmentLines isDateLine openChars closeChars (pySplitLines fileContents)).excludedLines = [])
    (hne : (segmentLines isDateLine openChars closeChars (pySplitLines fileContents)).lineRanges ≠ []) :
    ∃ msg, parseFile cfg isDateLine openChars closeChars matchFn fileContents =
      Except.error msg := by
  simp only [parseFile]
  rw [hexc]
  rcases hr : (segmentLines isDateLine openChars closeChars (pySplitLines fileContents)).lineRanges
    with _ | ⟨r, rest⟩
  · exact absurd hr hne
  · cases r with
    | none =>
      exact ⟨"TypeError: NoneType object is not subscriptable", rfl⟩
    | some rg =>
      refine ⟨"IndexError: list index out of range", ?_⟩
      simp [getLinesByRanges, getLinesByRangesGo]

/-- C10 counterexample: the claim's equivalence direction ("parse returns
normally only when a date line precedes the blocks it emits") fails.  On
the file `"- 10\n2021.08.01"` the only block is at line 0 and the only
date line is the later line 1, yet the parse returns normally (with no
entries, the block not matching the pattern). -/
theorem c10_block_before_date_returns_normally :
    parseFile demoCfg demoIsDate1 ["("] [")"] (fun _ => none) "- 10\n2021.08.01" =
      Except.ok [] ∧
    segmentLines demoIsDate1 ["("] [")"] ["- 10", "2021.08.01"] =
      { insideMultiline := false
        multilineStartIdx := 0
        excludedLines := [1]
        lineRanges := [some (0, 0)] } :=
  ⟨rfl, rfl⟩

/-- C10 witness: the amended theorem applied to the file `"- 10"` with no
recognized date line. -/
theorem c10_no_date_line_parse_fails_witness :
    (segmentLines (fun _ => false) ["("] [")"] (pySplitLines "- 10")).excludedLines = [] ∧
    (segmentLines (fun _ => false) ["("] [")"] (pySplitLines "- 10")).lineRanges ≠ [] ∧
    ∃ msg, parseFile demoCfg (fun _ => false) ["("] [")"] (fun _ => none) "- 10" =
      Except.error msg :=
  ⟨rfl, by decide,
    c10_no_date_line_parse_fails demoCfg (fun _ => false) ["("] [")"] (fun _ => none) "- 10"
      rfl (by decide)⟩

/-- C9: a block whose joined text does not match the composite pattern
contributes no entry and does not abort the processing; the result is the
entries of exactly the matching blocks, in block order.  The hypothesis
rules out the separate fail-fast classification abort (claim C2) for the
blocks that do match. -/
theorem c9_nonmatching_blocks_dropped (cfg : ClassifyConfig)
    (matchFn : String → Option MatchGroups) (blocks : List (List String × String))
    (h : ∀ b ∈ blocks, ∀ m, matchFn (pyJoin "\n" b.1) = some m →
      (parseExpenseObjFromMatchGroups cfg m b.2).isOk = true) :
    processLineRanges cfg matchFn blocks =
      Except.ok (blocks.filterMap (fun b =>
        (matchFn (pyJoin "\n" b.1)).bind
          (fun m => (parseExpenseObjFromMatchGroups cfg m b.2).toOption))) := by
  induction blocks with
  | nil => rfl
  | cons b rest ih =>
    obtain ⟨ls, date⟩ := b
    have hrest := ih (fun b hb => h b (List.mem_cons_of_mem _ hb))
    have hhead := h (ls, date) (List.mem_cons_self _ _)
    unfold processLineRanges
    cases hm : matchFn (pyJoin "\n" ls) with
    | none => simp [hm, hrest]
    | some m =>
      have hok := hhead m hm
      cases hp : parseExpenseObjFromMatchGroups cfg m date with
      | error e => rw [hp] at hok; simp [Except.isOk, Except.toBool] at hok
      | ok pe => simp [hm, hp, hrest, Except.toOption]

/-- Concrete match function for the C9 witness: only the line
`- 1.234 | Coffee` matches the composite pattern. -/
def demoMatchFn (s : String) : Option MatchGroups :=
  if s = "- 1.234 | Coffee" then some demoGroups else none

/-- Concrete block list for the C9 witness: one non-matching block
followed by one matching block, both under the same date. -/
def demoBlocks : List (List String × String) :=
  [(["junk line"], "2021.08.01"), (["- 1.234 | Coffee"], "2021.08.01")]

/-- C9 witness: on a concrete block list with one non-matching and one
matching block, the theorem's hypothesis holds and processing returns
exactly the matching block's entry. -/
theorem c9_nonmatching_blocks_dropped_witness :
    processLineRanges demoCfg demoMatchFn demoBlocks =
      Except.ok (demoBlocks.filterMap (fun b =>
        (demoMatchFn (pyJoin "\n" b.1)).bind
          (fun m => (parseExpenseObjFromMatchGroups demoCfg m b.2).toOption))) ∧
    demoBlocks.filterMap (fun b =>
        (demoMatchFn (pyJoin "\n" b.1)).bind
          (fun m => (parseExpenseObjFromMatchGroups demoCfg m b.2).toOption)) =
      [{ date := "2021.08.01"
         payment_method_marker := "-"
         payment_method_suffix := "K"
         amount := AmountVal.ofStr "1.234"
         title := "Coffee"
         details := ""
         more_details := ""
         amount_title_sep := " | "
         payment_method := some pmCash
         item_type := some ItemType.EXPENSE }] := by
  refine ⟨c9_nonmatching_blocks_dropped demoCfg demoMatchFn demoBlocks ?_, rfl⟩
  intro b hb m hm
  simp only [demoBlocks, List.mem_cons, List.not_mem_nil, or_false] at hb
  rcases hb with rfl | rfl
  · simp [demoMatchFn, pyJoin] at hm
  · simp [demoMatchFn, pyJoin] at hm
    subst hm
    rfl

/-! Lemmas about the payment-method registry construction (claims C5 and
C7). -/

/-- Association-list lookup misses exactly the keys that are absent. -/
theorem lookup_eq_none_iff_keys {α β : Type} [BEq α] [LawfulBEq α]
    (k : α) (l : List (α × β)) : List.lookup k l = none ↔ k ∉ l.map Prod.fst := by
  induction l with
  | nil => simp
  | cons e t ih =>
    obtain ⟨a, b⟩ := e
    by_cases h : k = a
    · subst h
      simp [List.lookup_cons]
    · simp [List.lookup_cons, beq_false_of_ne h, ih, h]

/-- A successful association-list lookup exhibits a stored pair. -/
theorem mem_of_lookup_eq_some_pair {α β : Type} [BEq α] [LawfulBEq α]
    {k : α} {v : β} {l : List (α × β)} (h : List.lookup k l = some v) : (k, v) ∈ l := by
  induction l with
  | nil => cases h
  | cons e t ih =>
    obtain ⟨a, b⟩ := e
    by_cases hk : k = a
    · subst hk
      simp [List.lookup_cons] at h
      subst h
      exact List.mem_cons_self _ _
    · rw [List.lookup_cons] at h
      rw [beq_false_of_ne hk] at h
      simp at h
      exact List.mem_cons_of_mem _ (ih h)

/-- Keys contributed by one payment method restricted to a tail `pfs` of
its postfix list. -/
def keysFromList (pm : PaymentMethod) (pfs : List String) : List (String × String) :=
  pfs.filterMap (fun pf => (sanitizeSuffix pf).map (fun sp => (pm.prefix_symbol, sp)))

/-- Registry contents produced by a payment-method list when no duplicate
key arises: each key paired with its payment method, in registration
order. -/
def registryPairs : List PaymentMethod → List ((String × String) × PaymentMethod)
  | [] => []
  | pm :: rest => (keysOfPm pm).map (fun k => (k, pm)) ++ registryPairs rest

/-- The keys of `registryPairs` are `allRegistryKeys`. -/
theorem map_fst_registryPairs (pms : List PaymentMethod) :
    (registryPairs pms).map Prod.fst = allRegistryKeys pms := by
  induction pms with
  | nil => rfl
  | cons pm rest ih =>
    simp only [registryPairs, List.map_append, List.map_map, ih, allRegistryKeys]
    rw [show (Prod.fst ∘ fun k : String × String => (k, pm)) = id from rfl, List.map_id]

/-- Success case of the per-payment-method registration loop: when the
fresh keys collide neither with the accumulated registry nor with each
other, every key/method pair is appended in order. -/
theorem registerSuffixes_ok (pm : PaymentMethod) (pfs : List String) :
    ∀ (reg : List ((String × String) × PaymentMethod)),
    (∀ pf ∈ pfs, (sanitizeSuffix pf).isSome) →
    (reg.map Prod.fst ++ keysFromList pm pfs).Nodup →
    registerSuffixes pm pfs reg =
      Except.ok (reg ++ (keysFromList pm pfs).map (fun k => (k, pm))) := by
  induction pfs with
  | nil =>
    intro reg _ _
    simp [registerSuffixes, keysFromList]
  | cons pf rest ih =>
    intro reg hval hnodup
    obtain ⟨sp, hsp⟩ := Option.isSome_iff_exists.mp (hval pf (List.mem_cons_self _ _))
    have hkeys : keysFromList pm (pf :: rest) =
        (pm.prefix_symbol, sp) :: keysFromList pm rest := by
      simp [keysFromList, hsp]
    rw [hkeys] at hnodup ⊢
    have hnotmem : (pm.prefix_symbol, sp) ∉ reg.map Prod.fst := by
      intro hmem
      exact (List.disjoint_of_nodup_append hnodup) hmem (List.mem_cons_self _ _)
    have hlk : List.lookup (pm.prefix_symbol, sp) reg = none :=
      (lookup_eq_none_iff_keys _ _).mpr hnotmem
    have hnodup2 := hnodup
    rw [List.append_cons] at hnodup2
    have hrec := ih (reg ++ [((pm.prefix_symbol, sp), pm)])
      (fun p hp => hval p (List.mem_cons_of_mem _ hp))
      (by simpa using hnodup2)
    simp only [registerSuffixes, hsp, hlk]
    rw [hrec]
    simp

/-- Failure case of the per-payment-method registration loop: a key
collision (with the accumulated registry or within the fresh keys) raises
the duplicate-key error carrying the previously registered payment method
and the current one; the provenance hypotheses locate both. -/
theorem registerSuffixes_dup (pms0 : List PaymentMethod) (pm : PaymentMethod)
    (hpm : pm ∈ pms0) (pfs : List String) :
    ∀ (reg : List ((String × String) × PaymentMethod)),
    (∀ pf ∈ pfs, (sanitizeSuffix pf).isSome) →
    (∀ pf ∈ pfs, pf ∈ pm.postfix_symbols) →
    (∀ e ∈ reg, e.2 ∈ pms0 ∧ e.1 ∈ keysOfPm e.2) →
    (reg.map Prod.fst).Nodup →
    ¬ (reg.map Prod.fst ++ keysFromList pm pfs).Nodup →
    ∃ k a, registerSuffixes pm pfs reg = Except.error (ConfigError.duplicateKey k a pm) ∧
      a ∈ pms0 ∧ k ∈ keysOfPm a ∧ k ∈ keysOfPm pm := by
  induction pfs with
  | nil =>
    intro reg _ _ _ hregnd hdup
    exact absurd (by simpa [keysFromList] using hregnd) hdup
  | cons pf rest ih =>
    intro reg hval hsub hprov hregnd hdup
    obtain ⟨sp, hsp⟩ := Option.isSome_iff_exists.mp (hval pf (List.mem_cons_self _ _))
    have hkeys : keysFromList pm (pf :: rest) =
        (pm.prefix_symbol, sp) :: keysFromList pm rest := by
      simp [keysFromList, hsp]
    rw [hkeys] at hdup
    have hkmem : (pm.prefix_symbol, sp) ∈ keysOfPm pm := by
      simp only [keysOfPm, List.mem_filterMap]
      exact ⟨pf, hsub pf (List.mem_cons_self _ _), by simp [hsp]⟩
    cases hlk : List.lookup (pm.prefix_symbol, sp) reg with
    | some a =>
      refine ⟨(pm.prefix_symbol, sp), a, ?_, ?_, ?_, hkmem⟩
      · simp only [registerSuffixes, hsp, hlk]
      · exact (hprov _ (mem_of_lookup_eq_some_pair hlk)).1
      · exact (hprov _ (mem_of_lookup_eq_some_pair hlk)).2
    | none =>
      have hnotmem : (pm.prefix_symbol, sp) ∉ reg.map Prod.fst :=
        (lookup_eq_none_iff_keys _ _).mp hlk
      have step : registerSuffixes pm (pf :: rest) reg =
          registerSuffixes pm rest (reg ++ [((pm.prefix_symbol, sp), pm)]) := by
        simp only [registerSuffixes, hsp, hlk]
      rw [step]
      apply ih (reg ++ [((pm.prefix_symbol, sp), pm)])
        (fun p hp => hval p (List.mem_cons_of_mem _ hp))
        (fun p hp => hsub p (List.mem_cons_of_mem _ hp))
      · intro e he
        rcases List.mem_append.mp he with he | he
        · exact hprov e he
        · rcases List.mem_singleton.mp he with rfl
          exact ⟨hpm, hkmem⟩
      · rw [List.map_append]
        exact List.Nodup.append hregnd (by simp) (by simpa using hnotmem)
      · have hdup2 := hdup
        rw [List.append_cons] at hdup2
        rw [List.map_append]
        simpa using hdup2

/-- Success case of the registry construction: when all sanitized keys are
pairwise distinct (and distinct from the accumulated registry's keys), the
loop appends exactly the key/method pairs of every payment method. -/
theorem buildRegistry_ok (pms : List PaymentMethod) :
    ∀ (reg : List ((String × String) × PaymentMethod)),
    (∀ pm ∈ pms, ∀ pf ∈ pm.postfix_symbols, (sanitizeSuffix pf).isSome) →
    (reg.map Prod.fst ++ allRegistryKeys pms).Nodup →
    buildRegistry pms reg = Except.ok (reg ++ registryPairs pms) := by
  induction pms with
  | nil =>
    intro reg _ _
    simp [buildRegistry, registryPairs]
  | cons pm rest ih =>
    intro reg hval hnodup
    have hassoc : reg.map Prod.fst ++ allRegistryKeys (pm :: rest) =
        (reg.map Prod.fst ++ keysOfPm pm) ++ allRegistryKeys rest := by
      simp [allRegistryKeys]
    rw [hassoc] at hnodup
    have h1 : (reg.map Prod.fst ++ keysOfPm pm).Nodup := hnodup.of_append_left
    have hreg := registerSuffixes_ok pm pm.postfix_symbols reg
      (hval pm (List.mem_cons_self _ _)) h1
    have hrec := ih (reg ++ (keysFromList pm pm.postfix_symbols).map (fun k => (k, pm)))
      (fun p hp => hval p (List.mem_cons_of_mem _ hp))
      (by
        rw [List.map_append, List.map_map]
        rw [show (Prod.fst ∘ fun k : String × String => (k, pm)) = id from rfl, List.map_id]
        exact hnodup)
    simp only [buildRegistry, hreg, hrec, registryPairs]
    simp [keysOfPm, keysFromList]

/-- Failure case of the registry construction: a duplicate sanitized key
anywhere in the payment-method list makes the loop raise the duplicate-key
error, and both payment methods carried by the error own the colliding
key. -/
theorem buildRegistry_dup (pms0 : List PaymentMethod) (pms : List PaymentMethod)
    (hsub : ∀ pm ∈ pms, pm ∈ pms0) :
    ∀ (reg : List ((String × String) × PaymentMethod)),
    (∀ pm ∈ pms, ∀ pf ∈ pm.postfix_symbols, (sanitizeSuffix pf).isSome) →
    (∀ e ∈ reg, e.2 ∈ pms0 ∧ e.1 ∈ keysOfPm e.2) →
    (reg.map Prod.fst).Nodup →
    ¬ (reg.map Prod.fst ++ allRegistryKeys pms).Nodup →
    ∃ k a b, buildRegistry pms reg = Except.error (ConfigError.duplicateKey k a b) ∧
      a ∈ pms0 ∧ b ∈ pms0 ∧ k ∈ keysOfPm a ∧ k ∈ keysOfPm b := by
  induction pms with
  | nil =>
    intro reg _ _ hregnd hdup
    exact absurd (by simpa [allRegistryKeys] using hregnd) hdup
  | cons pm rest ih =>
    intro reg hval hprov hregnd hdup
    by_cases h1 : (reg.map Prod.fst ++ keysOfPm pm).Nodup
    · have hreg := registerSuffixes_ok pm pm.postfix_symbols reg
        (hval pm (List.mem_cons_self _ _)) h1
      have hkeys2 : ((reg ++ (keysFromList pm pm.postfix_symbols).map (fun k => (k, pm))).map
          Prod.fst) = reg.map Prod.fst ++ keysOfPm pm := by
        rw [List.map_append, List.map_map]
        rw [show (Prod.fst ∘ fun k : String × String => (k, pm)) = id from rfl, List.map_id]
        rfl
      obtain ⟨k, a, b, hres, ha, hb, hka, hkb⟩ :=
        ih (fun p hp => hsub p (List.mem_cons_of_mem _ hp))
          (reg ++ (keysFromList pm pm.postfix_symbols).map (fun k => (k, pm)))
          (fun p hp => hval p (List.mem_cons_of_mem _ hp))
          (by
            intro e he
            rcases List.mem_append.mp he with he | he
            · exact hprov e he
            · rcases List.mem_map.mp he with ⟨key, hkey, rfl⟩
              exact ⟨hsub pm (List.mem_cons_self _ _), hkey⟩)
          (by rw [hkeys2]; exact h1)
          (by
            rw [hkeys2, List.append_assoc]
            intro hcon
            exact hdup (by simpa [allRegistryKeys] using hcon))
      exact ⟨k, a, b, by simp only [buildRegistry, hreg]; exact hres, ha, hb, hka, hkb⟩
    · obtain ⟨k, a, hres, ha, hka, hkpm⟩ :=
        registerSuffixes_dup pms0 pm (hsub pm (List.mem_cons_self _ _)) pm.postfix_symbols reg
          (hval pm (List.mem_cons_self _ _)) (fun _ hp => hp) hprov hregnd h1
      exact ⟨k, a, pm, by simp only [buildRegistry, hres], ha,
        hsub pm (List.mem_cons_self _ _), hka, hkpm⟩

/-- C7: when two payment methods (or two postfixes, possibly of the same
payment method) sanitize to the same `(prefix_symbol, sanitized_postfix)`
key, `ParserConfig.__post_init__` raises the duplicate-key `ValueError`
whose payload lists both conflicting payment methods, and no registry is
produced.  The hypothesis that every postfix sanitizes is the source's own
"Postfix is invalid" validation, which would otherwise fail first. -/
theorem c7_duplicate_key_is_fatal (pms : List PaymentMethod)
    (hval : ∀ pm ∈ pms, ∀ pf ∈ pm.postfix_symbols, (sanitizeSuffix pf).isSome)
    (hdup : ¬ (allRegistryKeys pms).Nodup) :
    ∃ k a b, paymentMethodsRegistry pms = Except.error (ConfigError.duplicateKey k a b) ∧
      a ∈ pms ∧ b ∈ pms ∧ k ∈ keysOfPm a ∧ k ∈ keysOfPm b := by
  have h := buildRegistry_dup pms pms (fun _ h => h) [] hval (by simp) (by simp)
    (by simpa using hdup)
  simpa [paymentMethodsRegistry] using h

/-- Concrete payment methods whose postfixes sanitize to the same key
(`K` and `K!` both sanitize to `K` under marker `-`). -/
def pmCardOne : PaymentMethod :=
  { short_name := "c1", display_name := "Card One", prefix_symbol := "-", postfix_symbols := ["K"] }

/-- Second payment method of the C7 witness. -/
def pmCardTwo : PaymentMethod :=
  { short_name := "c2", display_name := "Card Two", prefix_symbol := "-", postfix_symbols := ["K!"] }

/-- C7 witness: the theorem applied to the two colliding payment methods. -/
theorem c7_duplicate_key_is_fatal_witness :
    (∀ pm ∈ [pmCardOne, pmCardTwo], ∀ pf ∈ pm.postfix_symbols, (sanitizeSuffix pf).isSome) ∧
    ¬ (allRegistryKeys [pmCardOne, pmCardTwo]).Nodup ∧
    ∃ k a b, paymentMethodsRegistry [pmCardOne, pmCardTwo] =
        Except.error (ConfigError.duplicateKey k a b) ∧
      a ∈ [pmCardOne, pmCardTwo] ∧ b ∈ [pmCardOne, pmCardTwo] ∧
      k ∈ keysOfPm a ∧ k ∈ keysOfPm b :=
  ⟨by decide, by decide, c7_duplicate_key_is_fatal [pmCardOne, pmCardTwo] (by decide) (by decide)⟩

/-- C5 (amended): for every schema whose postfixes sanitize and produce no
duplicate key, the compiled registry's keys are exactly the
`(prefix_symbol, sanitized_postfix)` pairs of the payment methods'
postfixes, one per postfix — and nothing else: `ParserConfig.__post_init__`
registers no `(prefixMarker, no-postfix-required)` sentinel entries, and no
mandatory-postfix list is consulted. -/
theorem c5_registry_keys_exact (pms : List PaymentMethod)
    (hval : ∀ pm ∈ pms, ∀ pf ∈ pm.postfix_symbols, (sanitizeSuffix pf).isSome)
    (hnodup : (allRegistryKeys pms).Nodup) :
    ∃ r, paymentMethodsRegistry pms = Except.ok r ∧ r.map Prod.fst = allRegistryKeys pms := by
  refine ⟨registryPairs pms, ?_, map_fst_registryPairs pms⟩
  have h := buildRegistry_ok pms [] hval (by simpa using hnodup)
  simpa [paymentMethodsRegistry] using h

/-- C5 counterexample: for a payment method with marker `-` and single
postfix `K` (and no mandatory-postfix list anywhere in the configuration),
the compiled registry holds exactly the one key `("-", "K")` — there is no
additional entry keyed by a no-postfix-required sentinel for the marker,
contradicting the claimed sentinel registration. -/
theorem c5_no_sentinel_entry :
    paymentMethodsRegistry [pmCash] = Except.ok [(("-", "K"), pmCash)] ∧
    (∀ e ∈ [(("-", "K"), pmCash)], Prod.fst e = ("-", "K")) :=
  ⟨rfl, by decide⟩

/-- C5 witness: the amended theorem applied to the single payment method
`pmCash`. -/
theorem c5_registry_keys_exact_witness :
    (∀ pm ∈ [pmCash], ∀ pf ∈ pm.postfix_symbols, (sanitizeSuffix pf).isSome) ∧
    (allRegistryKeys [pmCash]).Nodup ∧
    ∃ r, paymentMethodsRegistry [pmCash] = Except.ok r ∧
      r.map Prod.fst = allRegistryKeys [pmCash] :=
  ⟨by decide, by decide, c5_registry_keys_exact [pmCash] (by decide) (by decide)⟩

/-! Lemmas about the composite-pattern builder (claims C6 and C8). -/

/-- The first occurrence of `c` in `xs ++ c :: ys` sits at index
`xs.length` when `c` does not occur in `xs`. -/
theorem findIdxOfChar_append_cons (c : Char) (xs ys : List Char) (h : c ∉ xs) :
    findIdxOfChar c (xs ++ c :: ys) = some xs.length := by
  induction xs with
  | nil => simp [findIdxOfChar]
  | cons x rest ih =>
    have hx : x ≠ c := fun he => h (by simp [he])
    have hrest : c ∉ rest := fun hm => h (List.mem_cons_of_mem _ hm)
    simp [findIdxOfChar, hx, ih hrest]

/-- The last `)` of `a ++ '(' :: (b ++ ')' :: c)` sits right after `b`
when `c` contains no `)`. -/
theorem rfindIdxOfChar_decomp (a b c : List Char) (hc : ')' ∉ c) :
    rfindIdxOfChar ')' (a ++ '(' :: (b ++ ')' :: c)) = some (a.length + b.length + 1) := by
  have hrev : (a ++ '(' :: (b ++ ')' :: c)).reverse =
      c.reverse ++ ')' :: (b.reverse ++ '(' :: a.reverse) := by
    simp
  have hcrev : ')' ∉ c.reverse := by simpa using hc
  rw [rfindIdxOfChar, hrev, findIdxOfChar_append_cons _ _ _ hcrev]
  simp [List.length_reverse, List.length_append]
  omega

/-- C6 (amended): for an `extract_inner_group` field whose pattern splits
as `start ++ "(" ++ inner ++ ")" ++ tail` (first `(`, last `)`), the
builder fails with an `IndexError` when `tail` is empty; otherwise it
emits `start ++ "(?P<name>" ++ inner ++ q ++ ")" ++ tail` where `q` is the
head of `tail` when that head is a quantifier (`*`, `?`, `+`) and empty
otherwise.  The whole `tail` — including the quantifier character — is
preserved after the new group, so a trailing quantifier ends up both
inside the named group and immediately after it. -/
theorem c6_extract_inner_group_shape (groupName : String) (f : ExpenseField)
    (a b c : List Char)
    (hx : f.extract_inner_group = true)
    (hv : f.value.toList = a ++ '(' :: (b ++ ')' :: c))
    (ha : '(' ∉ a) (hc : ')' ∉ c) :
    createRegex groupName f =
      match c with
      | [] => Except.error "IndexError: string index out of range"
      | q :: _ =>
        Except.ok (String.mk a ++ "(?P<" ++ groupName ++ ">"
          ++ String.mk (b ++ (if q = '*' || q = '?' || q = '+' then [q] else []))
          ++ ")" ++ String.mk c) := by
  have hfind : findIdxOfChar '(' f.value.toList = some a.length := by
    rw [hv]; exact findIdxOfChar_append_cons '(' a (b ++ ')' :: c) ha
  have hrfind : rfindIdxOfChar ')' f.value.toList = some (a.length + b.length + 1) := by
    rw [hv]; exact rfindIdxOfChar_decomp a b c hc
  have hsplit : f.value.toList = ((a ++ '(' :: b) ++ [')']) ++ c := by
    rw [hv]; simp
  have hget : f.value.toList.get? (a.length + b.length + 1 + 1) = c.get? 0 := by
    rw [hsplit, List.get?_append_right (by simp; omega)]
    congr 1
    simp
    omega
  have htake : f.value.toList.take (a.length + b.length + 1) = a ++ '(' :: b := by
    have hv2 : f.value.toList = (a ++ '(' :: b) ++ ')' :: c := by rw [hv]; simp
    rw [hv2]
    exact List.take_left' (by simp; omega)
  have hdrop : f.value.toList.drop (a.length + b.length + 1 + 1) = c := by
    rw [hsplit]
    exact List.drop_left' (by simp; omega)
  have hinner : (a ++ '(' :: b).drop (a.length + 1) = b := by
    rw [List.append_cons]
    exact List.drop_left' (by simp)
  have hstart : f.value.toList.take a.length = a := by
    rw [hv]
    exact List.take_left a _
  cases c with
  | nil =>
    simp only [createRegex, hx, if_true, hfind, hrfind]
    rw [hget]
    rfl
  | cons q rest =>
    simp only [createRegex, hx, if_true, hfind, hrfind]
    rw [hget, htake, hdrop, hinner, hstart]
    rfl

/-- Concrete `extract_inner_group` field with value `a(bc)+d`, accepted by
the single-group validation. -/
def fldQuant : ExpenseField :=
  { ftype := ExpenseFieldType.regex, value := "a(bc)+d", optional := false,
    extract_inner_group := true }

/-- C6 counterexample: on the validated pattern `a(bc)+d` the builder
outputs `a(?P<AMOUNT>bc+)+d` — the trailing quantifier `+` is copied into
the named group but also left in place after it, so it occurs twice in the
output (the input had one), contradicting the claim that the quantifier is
moved inside and appears exactly once. -/
theorem c6_quantifier_duplicated :
    ensureThereIsOnlyOneRegexGroup "a(bc)+d" = true ∧
    createRegex "AMOUNT" fldQuant = Except.ok "a(?P<AMOUNT>bc+)+d" ∧
    ("a(bc)+d".toList.count '+') = 1 ∧
    ("a(?P<AMOUNT>bc+)+d".toList.count '+') = 2 :=
  ⟨rfl, rfl, rfl, rfl⟩

/-- C6 witness: the amended theorem applied to `fldQuant` with the
decomposition `"a" ++ "(" ++ "bc" ++ ")" ++ "+d"`. -/
theorem c6_extract_inner_group_shape_witness :
    fldQuant.extract_inner_group = true ∧
    fldQuant.value.toList = ['a'] ++ '(' :: (['b', 'c'] ++ ')' :: ['+', 'd']) ∧
    createRegex "AMOUNT" fldQuant =
      Except.ok (String.mk ['a'] ++ "(?P<" ++ "AMOUNT" ++ ">"
        ++ String.mk (['b', 'c'] ++ (if '+' = '*' || '+' = '?' || '+' = '+' then ['+'] else []))
        ++ ")" ++ String.mk ['+', 'd']) :=
  ⟨rfl, by decide,
    c6_extract_inner_group_shape "AMOUNT" fldQuant ['a'] ['b', 'c'] ['+', 'd']
      rfl (by decide) (by decide) (by decide)⟩

/-- Updating a present key makes lookup return the new value. -/
theorem lookup_updateAssoc_self (used : List (String × Nat)) (n : String) (v c : Nat)
    (h : List.lookup n used = some c) : List.lookup n (updateAssoc used n v) = some v := by
  induction used with
  | nil => cases h
  | cons e t ih =>
    obtain ⟨a, b⟩ := e
    by_cases hn : a = n
    · subst hn
      simp [updateAssoc, List.lookup_cons]
    · have hn2 : n ≠ a := fun e2 => hn e2.symm
      rw [List.lookup_cons, beq_false_of_ne hn2] at h
      simp only [cond_false] at h
      have ih2 := ih h
      simp only [updateAssoc, List.map_cons] at ih2 ⊢
      simp only [hn, if_false, reduceIte]
      rw [List.lookup_cons, beq_false_of_ne hn2]
      simpa using ih2

/-- Updating one key leaves every other lookup unchanged. -/
theorem lookup_updateAssoc_ne (used : List (String × Nat)) (n m : String) (v : Nat)
    (h : m ≠ n) : List.lookup m (updateAssoc used n v) = List.lookup m used := by
  induction used with
  | nil => rfl
  | cons e t ih =>
    obtain ⟨a, b⟩ := e
    by_cases ha : a = n
    · subst ha
      simpa [updateAssoc, List.lookup_cons, beq_false_of_ne h] using ih
    · simp only [updateAssoc, List.map_cons, ha, if_false, reduceIte]
      rw [List.lookup_cons, List.lookup_cons]
      cases hma : m == a
      · simpa [updateAssoc] using ih
      · rfl

/-- The `used_group_names` dict of `_create_final_regex` always holds the
occurrence count of each name in the processed prefix; under that
invariant (and no mandatory repeats ahead), the loop computes exactly the
specification's occurrence-counted composite. -/
theorem createFinalRegexGo_eq_spec (fields : List (String × ExpenseField)) (mand : List String)
    (ps : List String) :
    ∀ (used : List (String × Nat)) (seen : List String) (acc : String),
    (∀ x, List.lookup x used = if seen.count x = 0 then none else some (seen.count x)) →
    (∀ n ∈ mand, seen.count n + ps.count n ≤ 1) →
    createFinalRegexGo fields mand ps used acc = composeBySpec fields ps seen acc := by
  induction ps with
  | nil => intro used seen acc _ _; rfl
  | cons n rest ih =>
    intro used seen acc hinv hno
    simp only [createFinalRegexGo, composeBySpec]
    cases hf : List.lookup n fields with
    | none => rfl
    | some fo =>
      cases hcount : seen.count n with
      | zero =>
        have hl : List.lookup n used = none := by rw [hinv n, hcount]; rfl
        have hsg : specGroupName 0 n = n := by simp [specGroupName]
        simp only [hl, hsg]
        cases hcr : createRegex n fo with
        | error e => simp only [hcr]
        | ok r =>
          simp only [hcr]
          apply ih ((n, 1) :: used) (seen ++ [n]) (acc ++ r)
          · intro x
            by_cases hx : x = n
            · subst hx
              rw [List.lookup_cons]
              simp [List.count_append, hcount]
            · rw [List.lookup_cons, beq_false_of_ne hx, hinv x]
              have hcx : List.count x (seen ++ [n]) = List.count x seen := by
                simp [List.count_append, List.count_cons, List.count_nil, hx]
              rw [hcx]
          · intro m hm
            have h1 := hno m hm
            by_cases hmn : m = n
            · subst hmn
              rw [List.count_cons_self] at h1
              simp [List.count_append, hcount]
              omega
            · rw [List.count_cons_of_ne hmn] at h1
              have hcm : List.count m (seen ++ [n]) = List.count m seen := by
                simp [List.count_append, List.count_cons, List.count_nil, hmn]
              rw [hcm]
              omega
      | succ c =>
        have hl : List.lookup n used = some (c + 1) := by
          rw [hinv n, hcount]; simp
        have hnm : n ∉ mand := by
          intro hmem
          have h1 := hno n hmem
          rw [hcount, List.count_cons_self] at h1
          omega
        have hsg : specGroupName (c + 1) n = n ++ "_" ++ toString (c + 1 + 1) := by
          simp [specGroupName]
        simp only [hl, hsg, if_pos hnm]
        cases hcr : createRegex (n ++ "_" ++ toString (c + 1 + 1)) fo with
        | error e => simp only [hcr]
        | ok r =>
          simp only [hcr]
          apply ih (updateAssoc used n (c + 1 + 1)) (seen ++ [n]) (acc ++ r)
          · intro x
            by_cases hx : x = n
            · subst hx
              rw [lookup_updateAssoc_self used x (c + 1 + 1) (c + 1) hl]
              simp [List.count_append, hcount]
            · rw [lookup_updateAssoc_ne used n x (c + 1 + 1) hx, hinv x]
              have hcx : List.count x (seen ++ [n]) = List.count x seen := by
                simp [List.count_append, List.count_cons, List.count_nil, hx]
              rw [hcx]
          · intro m hm
            have h1 := hno m hm
            have hmn : m ≠ n := fun he => hnm (he ▸ hm)
            rw [List.count_cons_of_ne hmn] at h1
            have hcm : List.count m (seen ++ [n]) = List.count m seen := by
              simp [List.count_append, List.count_cons, List.count_nil, hmn]
            rw [hcm]
            omega

/-- When some mandatory name has already been seen and recurs, or recurs
twice ahead, the loop of `_create_final_regex` never returns successfully
(it stops at the duplicate-group `ValueError`, or at an earlier per-field
error). -/
theorem createFinalRegexGo_not_ok (fields : List (String × ExpenseField)) (mand : List String)
    (ps : List String) :
    ∀ (used : List (String × Nat)) (seen : List String) (acc : String),
    (∀ x, List.lookup x used = if seen.count x = 0 then none else some (seen.count x)) →
    (∃ n ∈ mand, (1 ≤ seen.count n ∧ 1 ≤ ps.count n) ∨ 2 ≤ ps.count n) →
    ∀ s, createFinalRegexGo fields mand ps used acc ≠ Except.ok s := by
  induction ps with
  | nil =>
    intro used seen acc _ hrep s
    obtain ⟨n, _, hcase⟩ := hrep
    simp at hcase
  | cons p rest ih =>
    intro used seen acc hinv hrep s
    simp only [createFinalRegexGo]
    cases hf : List.lookup p fields with
    | none => simp
    | some fo =>
      cases hcount : seen.count p with
      | zero =>
        have hl : List.lookup p used = none := by rw [hinv p, hcount]; rfl
        simp only [hl]
        cases hcr : createRegex p fo with
        | error e => simp
        | ok r =>
          apply ih ((p, 1) :: used) (seen ++ [p]) (acc ++ r)
          · intro x
            by_cases hx : x = p
            · subst hx
              rw [List.lookup_cons]
              simp [List.count_append, hcount]
            · rw [List.lookup_cons, beq_false_of_ne hx, hinv x]
              have hcx : List.count x (seen ++ [p]) = List.count x seen := by
                simp [List.count_append, List.count_cons, List.count_nil, hx]
              rw [hcx]
          · obtain ⟨n, hn, hcase⟩ := hrep
            refine ⟨n, hn, ?_⟩
            by_cases hx : n = p
            · subst hx
              rcases hcase with ⟨h1, _⟩ | h2
              · rw [hcount] at h1; omega
              · rw [List.count_cons_self] at h2
                exact Or.inl ⟨by simp [List.count_append], by omega⟩
            · have hcx : List.count n (seen ++ [p]) = List.count n seen := by
                simp [List.count_append, List.count_cons, List.count_nil, hx]
              rw [hcx]
              rcases hcase with ⟨h1, h2⟩ | h2
              · rw [List.count_cons_of_ne hx] at h2
                exact Or.inl ⟨h1, h2⟩
              · rw [List.count_cons_of_ne hx] at h2
                exact Or.inr h2
      | succ c =>
        have hl : List.lookup p used = some (c + 1) := by
          rw [hinv p, hcount]; simp
        simp only [hl]
        by_cases hm : p ∈ mand
        · rw [if_neg (not_not_intro hm)]
          simp
        · rw [if_pos hm]
          cases hcr : createRegex (p ++ "_" ++ toString (c + 1 + 1)) fo with
          | error e => simp
          | ok r =>
            apply ih (updateAssoc used p (c + 1 + 1)) (seen ++ [p]) (acc ++ r)
            · intro x
              by_cases hx : x = p
              · subst hx
                rw [lookup_updateAssoc_self used x (c + 1 + 1) (c + 1) hl]
                simp [List.count_append, hcount]
              · rw [lookup_updateAssoc_ne used p x (c + 1 + 1) hx, hinv x]
                have hcx : List.count x (seen ++ [p]) = List.count x seen := by
                  simp [List.count_append, List.count_cons, List.count_nil, hx]
                rw [hcx]
            · obtain ⟨n, hn, hcase⟩ := hrep
              have hx : n ≠ p := fun he => hm (he ▸ hn)
              refine ⟨n, hn, ?_⟩
              have hcx : List.count n (seen ++ [p]) = List.count n seen := by
                simp [List.count_append, List.count_cons, List.count_nil, hx]
              rw [hcx]
              rcases hcase with ⟨h1, h2⟩ | h2
              · rw [List.count_cons_of_ne hx] at h2
                exact Or.inl ⟨h1, h2⟩
              · rw [List.count_cons_of_ne hx] at h2
                exact Or.inr h2

/-- The fixed mandatory-field vocabulary, the values of
`config.MandatoryExpenseField`. -/
def mandatoryFieldNames : List String :=
  ["PAYMENT_METHOD_MARKER", "AMOUNT", "AMOUNT_TITLE_SEP", "TITLE", "DETAILS",
   "MORE_DETAILS", "PAYMENT_METHOD_POSTFIX"]

/-- C8 (amended): building the composite pattern over the placeholders in
template order equals the specification's occurrence-counted composite
(one plain named group per first occurrence, `name_k` for the k-th
occurrence of a repeated non-mandatory name) whenever no mandatory name
repeats — in particular it only raises when a per-field construction
raises; and whenever a mandatory name repeats in the template the build
never succeeds. -/
theorem c8_composite_group_names (ps : List String) (fields : List (String × ExpenseField))
    (mand : List String) :
    ((∀ n ∈ mand, ps.count n ≤ 1) →
      createFinalRegex ps fields mand = composeBySpec fields ps [] "") ∧
    ((∃ n ∈ mand, 2 ≤ ps.count n) →
      ∃ e, createFinalRegex ps fields mand = Except.error e) := by
  constructor
  · intro h
    exact createFinalRegexGo_eq_spec fields mand ps [] [] ""
      (fun x => by simp) (fun n hn => by simpa using h n hn)
  · intro h
    have hne := createFinalRegexGo_not_ok fields mand ps [] [] ""
      (fun x => by simp)
      (by obtain ⟨n, hn, h2⟩ := h; exact ⟨n, hn, Or.inr h2⟩)
    cases hres : createFinalRegex ps fields mand with
    | error e => exact ⟨e, rfl⟩
    | ok s => exact absurd hres (hne s)

/-- Simple non-extracting regex field used by the C8 theorems. -/
def fldPlain : ExpenseField :=
  { ftype := ExpenseFieldType.regex, value := "x", optional := false }

/-- Field whose regex `a(b)` has its single capturing group at the very
end of the pattern. -/
def fldInnerAtEnd : ExpenseField :=
  { ftype := ExpenseFieldType.regex, value := "a(b)", optional := false,
    extract_inner_group := true }

/-- Field table holding every mandatory field (so the schema passes the
mandatory-vocabulary validation) plus a non-mandatory `EXTRA` field; the
`AMOUNT` field is the `a(b)` inner-group field. -/
def demoFields : List (String × ExpenseField) :=
  [("PAYMENT_METHOD_MARKER", fldPlain), ("AMOUNT", fldInnerAtEnd),
   ("AMOUNT_TITLE_SEP", fldPlain), ("TITLE", fldPlain), ("DETAILS", fldPlain),
   ("MORE_DETAILS", fldPlain), ("PAYMENT_METHOD_POSTFIX", fldPlain),
   ("EXTRA", fldPlain)]

/-- C8 counterexample: a schema that passes the single-group validation
for its `extract_inner_group` field (`a(b)` has exactly one group) and
repeats no mandatory placeholder, yet building the composite pattern
raises an `IndexError` — refuting the claim that building never raises on
valid schemas. -/
theorem c8_valid_schema_build_raises :
    ensureThereIsOnlyOneRegexGroup "a(b)" = true ∧
    (∀ n ∈ mandatoryFieldNames, (["AMOUNT"] : List String).count n ≤ 1) ∧
    createFinalRegex ["AMOUNT"] demoFields mandatoryFieldNames =
      Except.error "IndexError: string index out of range" :=
  ⟨rfl, by decide, rfl⟩

/-- C8 witness: the amended theorem applied to a template with a repeated
non-mandatory field (suffixed groups, no error) and to a template with a
repeated mandatory field (never succeeds). -/
theorem c8_composite_group_names_witness :
    (∀ n ∈ mandatoryFieldNames, (["TITLE", "EXTRA", "EXTRA"] : List String).count n ≤ 1) ∧
    createFinalRegex ["TITLE", "EXTRA", "EXTRA"] demoFields mandatoryFieldNames =
      composeBySpec demoFields ["TITLE", "EXTRA", "EXTRA"] [] "" ∧
    composeBySpec demoFields ["TITLE", "EXTRA", "EXTRA"] [] "" =
      Except.ok "(?P<TITLE>x)(?P<EXTRA>x)(?P<EXTRA_2>x)" ∧
    (∃ n ∈ mandatoryFieldNames, 2 ≤ (["TITLE", "TITLE"] : List String).count n) ∧
    ∃ e, createFinalRegex ["TITLE", "TITLE"] demoFields mandatoryFieldNames =
      Except.error e :=
  ⟨by decide,
    (c8_composite_group_names ["TITLE", "EXTRA", "EXTRA"] demoFields mandatoryFieldNames).1
      (by decide),
    rfl,
    ⟨"TITLE", by decide, by decide⟩,
    (c8_composite_group_names ["TITLE", "TITLE"] demoFields mandatoryFieldNames).2
      ⟨"TITLE", by decide, by decide⟩⟩
